import Mathlib

set_option maxHeartbeats 1000000
set_option maxRecDepth 100000

/-!
Verification of the per-message encryption core of the mail server
(crates/jmap/src/email/crypto.rs).  Bytes are modelled as `Nat`, byte
buffers as `List Nat`, and the external crates the file calls into
(mail_parser, rPGP, rasn, rsa, aes/cbc, the RNG) as explicit function
parameters, so that every definition here is executable.
-/

/-- Error type of the encrypt operation (`EncryptMessageError` in the source). -/
inductive EncryptMessageError where
  | AlreadyEncrypted
  | Error (msg : String)
deriving DecidableEq

/-- Outcome of running `encrypt`: a value, a returned error, or a Rust panic
(the source calls `.unwrap()` on the RSA key-wrapping result). -/
inductive RunResult (α : Type) where
  | ok (a : α)
  | err (e : EncryptMessageError)
  | crashed (msg : String)
deriving DecidableEq

/-- Symmetric algorithm selector (`enum Algorithm`). -/
inductive Algorithm where
  | Aes128
  | Aes256
deriving DecidableEq

/-- Encryption method selector (`enum EncryptionMethod`). -/
inductive EncryptionMethod where
  | PGP
  | SMIME
deriving DecidableEq

/-- Persisted parameters (`struct EncryptionParams`); certificates are raw byte
sequences. -/
structure EncryptionParams where
  method : EncryptionMethod
  algo : Algorithm
  certs : List (List Nat)
deriving DecidableEq

/-- `Algorithm::key_size`. -/
def key_size : Algorithm → Nat
  | .Aes128 => 16
  | .Aes256 => 32

/-- ASCII lower-casing of one character, as `u8::to_ascii_lowercase` does byte-wise. -/
def asciiLower (c : Char) : Char :=
  if 'A' ≤ c ∧ c ≤ 'Z' then Char.ofNat (c.toNat + 32) else c

/-- Rust `str::eq_ignore_ascii_case` on the character lists of two strings. -/
def eq_ignore_ascii_case (a b : List Char) : Bool :=
  a.map asciiLower == b.map asciiLower

/-- `eq_ignore_ascii_case` packaged for `String` arguments. -/
def ciStr (a : String) (b : String) : Bool :=
  eq_ignore_ascii_case a.toList b.toList

/-- Rust `str::rsplit_once('.')`: split at the last dot, if any. -/
def rsplitDot : List Char → Option (List Char × List Char)
  | [] => none
  | c :: t =>
    match rsplitDot t with
    | some ab => some (c :: ab.1, ab.2)
    | none => if c = '.' then some ([], t) else none

/-- Top-level Content-Type of a parsed message (`ct.c_type` / `ct.c_subtype`). -/
structure ContentTypeModel where
  c_type : String
  c_subtype : Option String
deriving DecidableEq

/-- One root-part header as mail_parser exposes it: its name and the byte span
of the full `field-name: field-body\r\n` line inside the raw message. -/
structure HeaderModel where
  hname : String
  offset_field : Nat
  offset_end : Nat
deriving DecidableEq

/-- The accessors of `mail_parser::Message` that crypto.rs uses: top-level
content type, attachment name, the root part's header list, the raw message
bytes and the root part's raw-body offset. -/
structure ParsedMessage where
  content_type : Option ContentTypeModel
  attachment_name : Option String
  headers : List HeaderModel
  raw_message : List Nat
  raw_body_offset : Nat

/-- `is_encrypted` translated from the source: type/subtype comparisons use
`eq_ignore_ascii_case`; the attachment-filename extension is compared with
`["p7m", "p7s", "p7c", "p7z"].contains(&ext)`, i.e. exactly (case-sensitively). -/
def is_encrypted (m : ParsedMessage) : Bool :=
  match m.content_type with
  | none => false
  | some ct =>
    let main_type := ct.c_type
    let sub_type := ct.c_subtype.getD ""
    (ciStr main_type "application" &&
      (ciStr sub_type "pkcs7-mime" || ciStr sub_type "pkcs7-signature" ||
        (ciStr sub_type "octet-stream" &&
          (match m.attachment_name with
           | none => false
           | some name =>
             match rsplitDot name.toList with
             | none => false
             | some pe =>
               pe.2 == "p7m".toList || pe.2 == "p7s".toList ||
                 pe.2 == "p7c".toList || pe.2 == "p7z".toList))))
      || (ciStr main_type "multipart" && ciStr sub_type "encrypted")

/-- The detector exactly as claim C2 words it, for comparison with the source
translation: identical except that the filename extension is also compared
ASCII case-insensitively. -/
def claimed_is_encrypted (m : ParsedMessage) : Bool :=
  match m.content_type with
  | none => false
  | some ct =>
    let main_type := ct.c_type
    let sub_type := ct.c_subtype.getD ""
    (ciStr main_type "application" &&
      (ciStr sub_type "pkcs7-mime" || ciStr sub_type "pkcs7-signature" ||
        (ciStr sub_type "octet-stream" &&
          (match m.attachment_name with
           | none => false
           | some name =>
             match rsplitDot name.toList with
             | none => false
             | some pe =>
               eq_ignore_ascii_case pe.2 "p7m".toList ||
                 eq_ignore_ascii_case pe.2 "p7s".toList ||
                 eq_ignore_ascii_case pe.2 "p7c".toList ||
                 eq_ignore_ascii_case pe.2 "p7z".toList))))
      || (ciStr main_type "multipart" && ciStr sub_type "encrypted")

/-- Little-endian fixed-width byte encoding, `k` bytes of `n` (bincode's
fixed-int layout). -/
def natLE : Nat → Nat → List Nat
  | 0, _ => []
  | k + 1, n => n % 256 :: natLE k (n / 256)

/-- Read back a `k`-byte little-endian integer. -/
def readLE : Nat → List Nat → Option (Nat × List Nat)
  | 0, l => some (0, l)
  | _ + 1, [] => none
  | k + 1, b :: l => (readLE k l).map fun vr => (b + 256 * vr.1, vr.2)

/-- Read `k` raw bytes. -/
def readBytesN : Nat → List Nat → Option (List Nat × List Nat)
  | 0, l => some ([], l)
  | _ + 1, [] => none
  | k + 1, b :: l => (readBytesN k l).map fun vr => (b :: vr.1, vr.2)

/-- serde variant index of `EncryptionMethod` (declaration order). -/
def methodIdx : EncryptionMethod → Nat
  | .PGP => 0
  | .SMIME => 1

/-- serde variant index of `Algorithm` (declaration order). -/
def algoIdx : Algorithm → Nat
  | .Aes128 => 0
  | .Aes256 => 1

/-- bincode 1.x default encoding of `EncryptionParams`: u32 little-endian
variant tag for each enum field, u64 little-endian length-prefixed `Vec`s,
in declared field order (method, algo, certs). -/
def bincodeParams (p : EncryptionParams) : List Nat :=
  natLE 4 (methodIdx p.method) ++ natLE 4 (algoIdx p.algo) ++
    natLE 8 p.certs.length ++ (p.certs.map fun c => natLE 8 c.length ++ c).flatten

/-- bincode reader for the method field. -/
def readMethod (l : List Nat) : Option (EncryptionMethod × List Nat) :=
  (readLE 4 l).bind fun vr =>
    if vr.1 = 0 then some (.PGP, vr.2)
    else if vr.1 = 1 then some (.SMIME, vr.2)
    else none

/-- bincode reader for the algo field. -/
def readAlgo (l : List Nat) : Option (Algorithm × List Nat) :=
  (readLE 4 l).bind fun vr =>
    if vr.1 = 0 then some (.Aes128, vr.2)
    else if vr.1 = 1 then some (.Aes256, vr.2)
    else none

/-- bincode reader for one length-prefixed certificate. -/
def readCert (l : List Nat) : Option (List Nat × List Nat) :=
  (readLE 8 l).bind fun nr => readBytesN nr.1 nr.2

/-- bincode reader for `k` certificates. -/
def readCerts : Nat → List Nat → Option (List (List Nat) × List Nat)
  | 0, l => some ([], l)
  | k + 1, l => (readCert l).bind fun cr =>
      (readCerts k cr.2).map fun csr => (cr.1 :: csr.1, csr.2)

/-- bincode deserializer for `EncryptionParams` (trailing bytes are ignored,
as bincode 1.x `deserialize` does). -/
def bincodeReadParams (l : List Nat) : Option EncryptionParams :=
  (readMethod l).bind fun mr =>
    (readAlgo mr.2).bind fun ar =>
      (readLE 8 ar.2).bind fun nr =>
        (readCerts nr.1 nr.2).map fun csr => ⟨mr.1, ar.1, csr.1⟩

/-- `impl Serialize for EncryptionParams`: version byte 0x01 followed by the
bincode body. -/
def serializeParams (p : EncryptionParams) : List Nat :=
  1 :: bincodeParams p

/-- `impl Deserialize for EncryptionParams`: the first byte must be 0x01 and at
least one byte must follow, otherwise an unknown-version error; a bincode
failure on the remainder is its own error. -/
def deserializeParams : List Nat → Except String EncryptionParams
  | [] => .error "Failed to read version while deserializing encryption params"
  | v :: rest =>
    if v = 1 ∧ rest ≠ [] then
      match bincodeReadParams rest with
      | some p => .ok p
      | none => .error "Failed to deserialize encryption params"
    else .error ("Unknown encryption params version: " ++ toString v)

/-- Rust `u8::is_ascii_whitespace`: space, tab, newline, carriage return, form
feed. -/
def isWsB (c : Nat) : Bool :=
  c = 32 || c = 9 || c = 10 || c = 13 || c = 12

/-- Rust `u8::to_ascii_uppercase`. -/
def toUpperB (c : Nat) : Nat :=
  if 97 ≤ c ∧ c ≤ 122 then c - 32 else c

/-- Byte list of an ASCII string literal. -/
def strBytes (s : String) : List Nat :=
  s.toList.map Char.toNat

/-- Rust `str::contains` for an ASCII needle, on byte lists. -/
def containsSeq (pat : List Nat) : List Nat → Bool
  | [] => pat.isEmpty
  | c :: t => pat.isPrefixOf (c :: t) || containsSeq pat t

/-- External parsers called by the certificate bundle parser:
mail_parser's `base64_decode`, and the validators
`rasn::der::decode::<rasn_pkix::Certificate>` and
`SignedPublicKey::from_bytes` (for which `none` means the input parses). -/
structure ExtParsers where
  b64 : List Nat → Option (List Nat)
  x509Err : List Nat → Option String
  pgpErr : List Nat → Option String

/-- First loop of `try_parse_pem`: skip ASCII whitespace; a dash starts a PEM
block (return the remainder), any other byte means "not PEM" (`none`); an
exhausted input proceeds with the empty remainder. -/
def pemStart : List Nat → Option (List Nat)
  | [] => some []
  | c :: t => if isWsB c then pemStart t else if c = 45 then some t else none

/-- Second loop of `try_parse_pem`: read the block tag up to a newline,
skipping dashes and upper-casing ASCII bytes; a non-ASCII byte aborts the
whole PEM scan (`none`). Returns the collected tag and the remainder. -/
def readTag : List Nat → List Nat → Option (List Nat × List Nat)
  | [], acc => some (acc.reverse, [])
  | c :: t, acc =>
    if c = 45 then readTag t acc
    else if c = 10 then some (acc.reverse, t)
    else if c < 128 then readTag t (toUpperB c :: acc)
    else none

/-- The ignore-unknown-block loop: consume until a newline that follows some
dash. -/
def skipBlock : List Nat → Bool → List Nat
  | [], _ => []
  | c :: t, foundEnd =>
    if c = 45 then skipBlock t true
    else if c = 10 && foundEnd then t
    else skipBlock t foundEnd

/-- The base64-collection loop: a dash latches `foundEnd`, a newline after a
dash stops, whitespace is skipped, and every other byte (including the letters
of the END marker line) is pushed onto the buffer. -/
def collectB64 : List Nat → Bool → List Nat → List Nat × List Nat
  | [], _, acc => (acc.reverse, [])
  | c :: t, foundEnd, acc =>
    if c = 45 then collectB64 t true acc
    else if c = 10 then (if foundEnd then (acc.reverse, t) else collectB64 t foundEnd acc)
    else if isWsB c then collectB64 t foundEnd acc
    else collectB64 t foundEnd (c :: acc)

/-- Bytes of "CERTIFICATE". -/
def certTagBytes : List Nat := strBytes "CERTIFICATE"

/-- Bytes of "PGP". -/
def pgpTagBytes : List Nat := strBytes "PGP"

/-- Tag classification step of `try_parse_pem`: a tag containing CERTIFICATE is
S/MIME, else a tag containing PGP is PGP, else the block is skipped (`none`);
a classification that disagrees with the method seen so far is the mixing
error. -/
def classifyTag (method : Option EncryptionMethod) (tag : List Nat) :
    Except String (Option EncryptionMethod) :=
  if containsSeq certTagBytes tag then
    if method = some .PGP then .error "Cannot mix PGP and S/MIME certificates"
    else .ok (some .SMIME)
  else if containsSeq pgpTagBytes tag then
    if method = some .SMIME then .error "Cannot mix PGP and S/MIME certificates"
    else .ok (some .PGP)
  else .ok none

/-- Per-method validation of a decoded block body, with the source's error
message prefixes. -/
def validateCert (P : ExtParsers) : EncryptionMethod → List Nat → Option String
  | .PGP, cert => (P.pgpErr cert).map fun e => "Failed to decode PGP public key: " ++ e
  | .SMIME, cert => (P.x509Err cert).map fun e => "Failed to decode X509 certificate: " ++ e

/-- The main loop of `try_parse_pem`, fuelled (every productive iteration
consumes at least one input byte, so `input length + 1` fuel is always
enough). -/
def pemLoop (P : ExtParsers) :
    Nat → List Nat → Option EncryptionMethod → List (List Nat) →
      Except String (Option (EncryptionMethod × List (List Nat)))
  | 0, _, _, _ => .ok none
  | fuel + 1, l, method, certs =>
    match pemStart l with
    | none => .ok none
    | some l1 =>
      match readTag l1 [] with
      | none => .ok none
      | some tagRest =>
        if tagRest.1 = [] then .ok (method.map fun m => (m, certs))
        else
          match classifyTag method tagRest.1 with
          | .error e => .error e
          | .ok none => pemLoop P fuel (skipBlock tagRest.2 false) method certs
          | .ok (some m) =>
            match P.b64 (collectB64 tagRest.2 false []).1 with
            | none => .error "Failed to decode base64 certificate."
            | some cert =>
              match validateCert P m cert with
              | some e => .error e
              | none =>
                pemLoop P fuel (collectB64 tagRest.2 false []).2 (some m) (certs ++ [cert])

/-- `try_parse_pem`. -/
def try_parse_pem (P : ExtParsers) (bytes : List Nat) :
    Except String (Option (EncryptionMethod × List (List Nat))) :=
  pemLoop P (bytes.length + 1) bytes none []

/-- `try_parse_certs`: PEM scan first, then the whole blob as a raw DER X.509
certificate, then as a raw binary OpenPGP key, else the fixed error. -/
def try_parse_certs (P : ExtParsers) (bytes : List Nat) :
    Except String (EncryptionMethod × List (List Nat)) :=
  match try_parse_pem P bytes with
  | .error e => .error e
  | .ok (some r) => .ok r
  | .ok none =>
    if P.x509Err bytes = none then .ok (.SMIME, [bytes])
    else if P.pgpErr bytes = none then .ok (.PGP, [bytes])
    else .error "Could not find any valid certificates"

/-- Value of one base64 alphabet character. -/
def b64Char (c : Nat) : Option Nat :=
  if 65 ≤ c ∧ c ≤ 90 then some (c - 65)
  else if 97 ≤ c ∧ c ≤ 122 then some (c - 71)
  else if 48 ≤ c ∧ c ≤ 57 then some (c + 4)
  else if c = 43 then some 62
  else if c = 47 then some 63
  else none

/-- Modelled from the spec: mail_parser's `base64_decode` is outside src/; the
spec describes PEM bodies as standard base64 armor, so this is RFC 4648
base64 (four-character groups, optional trailing padding, any character
outside the alphabet rejects). -/
def specBase64 : List Nat → Option (List Nat)
  | [] => some []
  | [a, b, 61, 61] => do
    let x ← b64Char a
    let y ← b64Char b
    pure [x * 4 + y / 16]
  | [a, b, c, 61] => do
    let x ← b64Char a
    let y ← b64Char b
    let z ← b64Char c
    pure [x * 4 + y / 16, y % 16 * 16 + z / 4]
  | a :: b :: c :: d :: rest => do
    let x ← b64Char a
    let y ← b64Char b
    let z ← b64Char c
    let w ← b64Char d
    let tail ← specBase64 rest
    pure ([x * 4 + y / 16, y % 16 * 16 + z / 4, z % 4 * 64 + w] ++ tail)
  | _ => none

/-- Modelled from the spec: mail_parser's `HeaderName::is_mime_header` is
outside src/; the spec lists the MIME headers as Content-Type,
Content-Transfer-Encoding, Content-Disposition, Content-ID,
Content-Description and MIME-Version. -/
def is_mime_header (name : String) : Bool :=
  ciStr name "Content-Type" || ciStr name "Content-Transfer-Encoding" ||
    ciStr name "Content-Disposition" || ciStr name "Content-ID" ||
    ciStr name "Content-Description" || ciStr name "MIME-Version"

/-- The byte span `raw_message[header.offset_field()..header.offset_end()]` of
one header line. -/
def headerSlice (raw : List Nat) (h : HeaderModel) : List Nat :=
  (raw.drop h.offset_field).take (h.offset_end - h.offset_field)

/-- Header partitioning loop of `encrypt`: each header's full span goes to the
inner buffer when its name is a MIME header, else to the outer buffer, in
original order. Returns (inner, outer). -/
def splitHeadersGo (raw : List Nat) : List HeaderModel → List Nat × List Nat
  | [] => ([], [])
  | h :: t =>
    let r := splitHeadersGo raw t
    if is_mime_header h.hname then (headerSlice raw h ++ r.1, r.2)
    else (r.1, headerSlice raw h ++ r.2)

/-- Header partitioning of a parsed message. -/
def splitHeaders (m : ParsedMessage) : List Nat × List Nat :=
  splitHeadersGo m.raw_message m.headers

/-- The inner (to-be-encrypted) buffer: MIME headers, a CRLF end-of-header
marker, then the raw body of the root part. -/
def innerMessage (m : ParsedMessage) : List Nat :=
  (splitHeaders m).1 ++ strBytes "\r\n" ++ m.raw_message.drop m.raw_body_offset

/-- PKCS#7 padding to 16-byte blocks: `k` bytes of value `k` with
`k = 16 - n % 16` (always between 1 and 16). Modelled from the spec's
glossary; the padding itself lives in the external `aes`/`cbc` crates. -/
def pkcs7Pad (l : List Nat) : List Nat :=
  l ++ List.replicate (16 - l.length % 16) (16 - l.length % 16)

/-- Byte-wise xor of two equal-length blocks. -/
def xorBytes (a b : List Nat) : List Nat :=
  List.zipWith Nat.xor a b

/-- CBC chaining over `n` 16-byte blocks with block cipher `E`: each block is
xored with the previous ciphertext block (initially the IV) and enciphered. -/
def cbcBlocks (E : List Nat → List Nat) : Nat → List Nat → List Nat → List Nat
  | 0, _, _ => []
  | n + 1, prev, l =>
    let c := E (xorBytes prev (l.take 16))
    c ++ cbcBlocks E n c (l.drop 16)

/-- AES-CBC encryption of an already padded buffer. -/
def cbcEncrypt (E : List Nat → List Nat) (iv l : List Nat) : List Nat :=
  cbcBlocks E (l.length / 16) iv l

/-- OIDs used by the S/MIME envelope (as integer-arc lists). -/
def oidEnvelopedData : List Nat := [1, 2, 840, 113549, 1, 7, 3]

/-- CMS id-data. -/
def oidData : List Nat := [1, 2, 840, 113549, 1, 7, 1]

/-- rsaEncryption. -/
def oidRsa : List Nat := [1, 2, 840, 113549, 1, 1, 1]

/-- aes128-CBC. -/
def oidAes128Cbc : List Nat := [2, 16, 840, 1, 101, 3, 4, 1, 2]

/-- aes256-CBC. -/
def oidAes256Cbc : List Nat := [2, 16, 840, 1, 101, 3, 4, 1, 42]

/-- `Algorithm::to_algorithm_identifier`. -/
def to_algorithm_identifier : Algorithm → List Nat
  | .Aes128 => oidAes128Cbc
  | .Aes256 => oidAes256Cbc

/-- The fields of a parsed X.509 certificate that the S/MIME branch reads:
issuer and serial number from the TBS certificate, and the raw
subjectPublicKey bits. -/
structure CertModel where
  issuer : List Nat
  serialNumber : List Nat
  spki : List Nat
deriving DecidableEq

/-- One CMS KeyTransRecipientInfo as `encrypt` builds it. -/
structure RecipientInfoModel where
  version : Nat
  ridIssuer : List Nat
  ridSerial : List Nat
  keyAlgOid : List Nat
  keyAlgParams : List Nat
  encryptedKey : List Nat
deriving DecidableEq

/-- CMS EncryptedContentInfo as `encrypt` builds it. -/
structure EncryptedContentInfoModel where
  contentType : List Nat
  algOid : List Nat
  algParams : List Nat
  encryptedContent : List Nat
deriving DecidableEq

/-- CMS EnvelopedData as `encrypt` builds it (originatorInfo and
unprotectedAttrs are absent). -/
structure EnvelopedDataModel where
  version : Nat
  recipientInfos : List RecipientInfoModel
  eci : EncryptedContentInfoModel
deriving DecidableEq

/-- CMS ContentInfo: a content type OID and the DER bytes of the content. -/
structure ContentInfoModel where
  contentType : List Nat
  content : List Nat
deriving DecidableEq

/-- The external cryptographic and encoding operations `encrypt` calls into
(make_boundary, rPGP, the RNG draws, the AES core, rasn's X.509 parser and
DER encoder, the rsa crate, and mail_builder's base64_encode_mime), as
explicit functions. `rsaEncrypt` takes the index of the call because the
source threads one RNG through the successive encryptions. -/
structure CryptOracles where
  boundary : List Nat
  pgpParse : List Nat → Except String Unit
  pgpEncrypt : Algorithm → List (List Nat) → List Nat → Except String (List Nat)
  pgpArmor : List Nat → Except String (List Nat)
  iv : List Nat
  symKey : Algorithm → List Nat
  aesBlock : Algorithm → List Nat → List Nat → List Nat
  x509Parse : List Nat → Except String CertModel
  rsaParse : List Nat → Except String (List Nat)
  rsaEncrypt : Nat → List Nat → List Nat → Except String (List Nat)
  derUnit : Except String (List Nat)
  derOctet : List Nat → Except String (List Nat)
  derEnveloped : EnvelopedDataModel → Except String (List Nat)
  derContentInfo : ContentInfoModel → Except String (List Nat)
  b64mime : List Nat → Except String (List Nat)

/-- `Algorithm::encrypt`: AES-CBC with PKCS#7 padding, dispatched on the
algorithm; the block core is external. -/
def algorithmEncrypt (O : CryptOracles) :
    Algorithm → List Nat → List Nat → List Nat → List Nat
  | .Aes128, key, iv, contents =>
    cbcEncrypt (O.aesBlock .Aes128 key) iv (pkcs7Pad contents)
  | .Aes256, key, iv, contents =>
    cbcEncrypt (O.aesBlock .Aes256 key) iv (pkcs7Pad contents)

/-- PGP public-key parsing loop of `encrypt` (keys are represented by their
input bytes; the external parser only accepts or rejects them). -/
def parsePgpKeys (O : CryptOracles) : List (List Nat) → Except String (List (List Nat))
  | [] => .ok []
  | c :: t =>
    match O.pgpParse c with
    | .error e => .error ("Failed to parse PGP public key: " ++ e)
    | .ok _ => (parsePgpKeys O t).map fun ks => c :: ks

/-- BTreeSet insertion, as far as membership and cardinality are concerned:
an element already in the set leaves it unchanged. -/
def setInsert (s : List RecipientInfoModel) (r : RecipientInfoModel) :
    List RecipientInfoModel :=
  if r ∈ s then s else s ++ [r]

/-- The per-recipient loop of the S/MIME branch: parse the certificate,
extract the PKCS#1 RSA key, wrap the symmetric key (a failure here is an
`unwrap` panic in the source), and insert a KeyTransRecipientInfo into the
recipient set. -/
def recipLoop (O : CryptOracles) (key : List Nat) :
    Nat → List (List Nat) → List RecipientInfoModel →
      RunResult (List RecipientInfoModel)
  | _, [], acc => .ok acc
  | idx, c :: t, acc =>
    match O.x509Parse c with
    | .error e => .err (.Error ("Failed to parse certificate: " ++ e))
    | .ok cert =>
      match O.rsaParse cert.spki with
      | .error e => .err (.Error ("Failed to parse public key: " ++ e))
      | .ok pk =>
        match O.rsaEncrypt idx pk key with
        | .error e => .crashed ("Failed to encrypt key: " ++ e)
        | .ok ek =>
          match O.derUnit with
          | .error e => .err (.Error ("Failed to encode RSA algorithm identifier: " ++ e))
          | .ok nullBytes =>
            recipLoop O key (idx + 1) t
              (setInsert acc ⟨0, cert.issuer, cert.serialNumber, oidRsa, nullBytes, ek⟩)

/-- The S/MIME branch up to the ContentInfo value: random IV and key, AES-CBC
bulk encryption, the recipient-info set, and the EnvelopedData wrapped (as
DER bytes) in a ContentInfo with contentType id-envelopedData. -/
def smimeContentInfo (O : CryptOracles) (params : EncryptionParams)
    (inner : List Nat) : RunResult ContentInfoModel :=
  match recipLoop O (O.symKey params.algo) 0 params.certs [] with
  | .err e => .err e
  | .crashed msg => .crashed msg
  | .ok infos =>
    match O.derOctet O.iv with
    | .error e => .err (.Error ("Failed to encode IV: " ++ e))
    | .ok ivDer =>
      match O.derEnveloped
          ⟨0, infos, ⟨oidData, to_algorithm_identifier params.algo, ivDer,
            algorithmEncrypt O params.algo (O.symKey params.algo) O.iv inner⟩⟩ with
      | .error e => .err (.Error ("Failed to encode EnvelopedData: " ++ e))
      | .ok envBytes => .ok ⟨oidEnvelopedData, envBytes⟩

/-- The fixed header bytes the S/MIME branch appends to the outer message. -/
def smimeHeaderBytes : List Nat :=
  strBytes "Content-Type: application/pkcs7-mime;\r\n\tname=\"smime.p7m\";\r\n\tsmime-type=enveloped-data\r\nContent-Disposition: attachment;\r\n\tfilename=\"smime.p7m\"\r\nContent-Transfer-Encoding: base64\r\n\r\n"

/-- First fixed fragment of the PGP envelope. -/
def pgpHdr1 : List Nat :=
  strBytes "Content-Type: multipart/encrypted;\r\n\tprotocol=\"application/pgp-encrypted\";\r\n\tboundary=\""

/-- Second fixed fragment of the PGP envelope. -/
def pgpHdr2 : List Nat :=
  strBytes "\"\r\n\r\nOpenPGP/MIME message (Automatically encrypted by Stalwart)\r\n\r\n--"

/-- Third fixed fragment of the PGP envelope. -/
def pgpHdr3 : List Nat :=
  strBytes "\r\nContent-Type: application/pgp-encrypted\r\nVersion: 1\r\n\r\n--"

/-- Fourth fixed fragment of the PGP envelope. -/
def pgpHdr4 : List Nat :=
  strBytes "\r\nContent-Type: application/octet-stream; name=\"encrypted.asc\"\r\nContent-Disposition: inline; filename=\"encrypted.asc\"\r\n\r\n"

/-- `encrypt` from the source: split the root part's headers into inner and
outer buffers, append CRLF and the raw body to the inner buffer, then build
the PGP or S/MIME envelope onto the outer buffer.  There is no
already-encrypted check anywhere in this function. -/
def encrypt (O : CryptOracles) (m : ParsedMessage) (params : EncryptionParams) :
    RunResult (List Nat) :=
  match params.method with
  | .PGP =>
    match parsePgpKeys O params.certs with
    | .error e => .err (.Error e)
    | .ok keys =>
      match O.pgpEncrypt params.algo keys (innerMessage m) with
      | .error e => .err (.Error ("Failed to encrypt message: " ++ e))
      | .ok msg =>
        match O.pgpArmor msg with
        | .error e => .err (.Error ("Failed to convert to armored string: " ++ e))
        | .ok armored =>
          .ok ((splitHeaders m).2 ++ pgpHdr1 ++ O.boundary ++ pgpHdr2 ++ O.boundary ++
            pgpHdr3 ++ O.boundary ++ pgpHdr4 ++ armored ++ strBytes "\r\n--" ++
            O.boundary ++ strBytes "--\r\n")
  | .SMIME =>
    match smimeContentInfo O params (innerMessage m) with
    | .err e => .err e
    | .crashed msg => .crashed msg
    | .ok ci =>
      match O.derContentInfo ci with
      | .error e => .err (.Error ("Failed to encode ContentInfo: " ++ e))
      | .ok pkcs7 =>
        match O.b64mime pkcs7 with
        | .error e => .err (.Error ("Failed to base64 encode PKCS7: " ++ e))
        | .ok encoded => .ok ((splitHeaders m).2 ++ smimeHeaderBytes ++ encoded)

/-- Length-prefixed byte-list encoding, used to build a concrete injective DER
stand-in for witness instantiations. -/
def encBytes (l : List Nat) : List Nat :=
  l.length :: l

/-- Reader for `encBytes`. -/
def rdBytes : List Nat → Option (List Nat × List Nat)
  | [] => none
  | n :: rest => readBytesN n rest

/-- Concrete encoding of one recipient info. -/
def encRecip (r : RecipientInfoModel) : List Nat :=
  r.version :: (encBytes r.ridIssuer ++ encBytes r.ridSerial ++ encBytes r.keyAlgOid ++
    encBytes r.keyAlgParams ++ encBytes r.encryptedKey)

/-- Reader for `encRecip`. -/
def rdRecip : List Nat → Option (RecipientInfoModel × List Nat)
  | [] => none
  | v :: rest =>
    (rdBytes rest).bind fun r1 =>
    (rdBytes r1.2).bind fun r2 =>
    (rdBytes r2.2).bind fun r3 =>
    (rdBytes r3.2).bind fun r4 =>
    (rdBytes r4.2).map fun r5 =>
      (⟨v, r1.1, r2.1, r3.1, r4.1, r5.1⟩, r5.2)

/-- Concrete encoding of a recipient list. -/
def encRecipList (rs : List RecipientInfoModel) : List Nat :=
  rs.length :: (rs.map encRecip).flatten

/-- Reader for `k` recipient infos. -/
def rdRecipN : Nat → List Nat → Option (List RecipientInfoModel × List Nat)
  | 0, l => some ([], l)
  | k + 1, l =>
    (rdRecip l).bind fun r =>
      (rdRecipN k r.2).map fun rs => (r.1 :: rs.1, rs.2)

/-- Concrete encoding of an EnvelopedData value. -/
def encEnv (e : EnvelopedDataModel) : List Nat :=
  e.version :: (encRecipList e.recipientInfos ++ encBytes e.eci.contentType ++
    encBytes e.eci.algOid ++ encBytes e.eci.algParams ++ encBytes e.eci.encryptedContent)

/-- Reader for `encEnv`. -/
def rdEnv : List Nat → Option (EnvelopedDataModel × List Nat)
  | [] => none
  | v :: rest =>
    match rest with
    | [] => none
    | n :: rest1 =>
      (rdRecipN n rest1).bind fun rs =>
      (rdBytes rs.2).bind fun b1 =>
      (rdBytes b1.2).bind fun b2 =>
      (rdBytes b2.2).bind fun b3 =>
      (rdBytes b3.2).map fun b4 =>
        (⟨v, rs.1, ⟨b1.1, b2.1, b3.1, b4.1⟩⟩, b4.2)

/-- Concrete encoding of a ContentInfo value. -/
def encCI (c : ContentInfoModel) : List Nat :=
  encBytes c.contentType ++ encBytes c.content

/-- Reader for `encCI`. -/
def rdCI (l : List Nat) : Option (ContentInfoModel × List Nat) :=
  (rdBytes l).bind fun b1 =>
    (rdBytes b1.2).map fun b2 => (⟨b1.1, b2.1⟩, b2.2)

/-- Concrete ContentInfo decoder for witnesses. -/
def decCIFun (l : List Nat) : Option ContentInfoModel :=
  (rdCI l).map fun r => r.1

/-- Concrete EnvelopedData decoder for witnesses. -/
def decEnvFun (l : List Nat) : Option EnvelopedDataModel :=
  (rdEnv l).map fun r => r.1

/-- A trivial but fully concrete oracle assignment, used to evaluate `encrypt`
on concrete inputs. -/
def oraclePGP : CryptOracles where
  boundary := strBytes "bnd"
  pgpParse := fun _ => .ok ()
  pgpEncrypt := fun _ _ _ => .ok (strBytes "CIPHER")
  pgpArmor := fun msg => .ok msg
  iv := List.replicate 16 0
  symKey := fun a => List.replicate (key_size a) 0
  aesBlock := fun _ _ _ => List.replicate 16 0
  x509Parse := fun c => .ok ⟨[7], [9], c⟩
  rsaParse := fun s => .ok s
  rsaEncrypt := fun i _ _ => .ok [i]
  derUnit := .ok [5, 0]
  derOctet := fun l => .ok l
  derEnveloped := fun e => .ok (encEnv e)
  derContentInfo := fun c => .ok (encCI c)
  b64mime := fun l => .ok l

/-- A message whose top-level Content-Type is multipart/encrypted: the
detector accepts it. -/
def msgMultipartEncrypted : ParsedMessage where
  content_type := some ⟨"multipart", some "encrypted"⟩
  attachment_name := none
  headers := [⟨"Subject", 0, 2⟩]
  raw_message := [65, 10, 66]
  raw_body_offset := 2

/-- Sample PGP parameters. -/
def paramsPGP : EncryptionParams :=
  ⟨.PGP, .Aes256, [[1, 2, 3]]⟩

/-- Sample S/MIME parameters with two distinct certificates. -/
def paramsSMIME : EncryptionParams :=
  ⟨.SMIME, .Aes128, [[1], [2]]⟩

/-- A message with an application/octet-stream attachment named "foo.P7M":
upper-case extension of a PKCS#7 body. -/
def msgUpperP7M : ParsedMessage where
  content_type := some ⟨"application", some "octet-stream"⟩
  attachment_name := some "foo.P7M"
  headers := []
  raw_message := []
  raw_body_offset := 0

/-- External-parser assignment whose raw-blob validators both reject. -/
def extNone : ExtParsers where
  b64 := specBase64
  x509Err := fun _ => some "bad"
  pgpErr := fun _ => some "bad"

/-- External-parser assignment that accepts everything it can. -/
def extAll : ExtParsers where
  b64 := specBase64
  x509Err := fun _ => none
  pgpErr := fun _ => none

/-- A PEM bundle with one CERTIFICATE block whose body is not base64 ("!")
followed by one PGP block: both methods appear, but the scan fails on the
first block's body before ever classifying the second block. -/
def mixedBadB64 : List Nat :=
  strBytes "-----BEGIN CERTIFICATE-----\n!\n-----END CERTIFICATE-----\n-----BEGIN PGP PUBLIC KEY BLOCK-----\n-----END PGP PUBLIC KEY BLOCK-----\n"

/-- The base64 decoding of the first block body collected in the C4 witness
(the END-marker letters are swept into the buffer by the collection loop). -/
def b64cert : List Nat :=
  (specBase64 (strBytes "ABENDCERTIFICATE")).getD []

/-- The S/MIME output of `encrypt` under the sample oracle, extracted for the
witness. -/
def smimeOut : List Nat :=
  match encrypt oraclePGP msgMultipartEncrypted paramsSMIME with
  | .ok o => o
  | _ => []

theorem readLE_natLE (k n : Nat) (r : List Nat) (h : n < 256 ^ k) :
    readLE k (natLE k n ++ r) = some (n, r) := by
  induction k generalizing n r with
  | zero =>
    have hn : n = 0 := by simpa using h
    subst hn
    rfl
  | succ k ih =>
    have hlt : n / 256 < 256 ^ k := by
      have h2 : 256 ^ (k + 1) = 256 ^ k * 256 := by ring
      omega
    rw [natLE, List.cons_append, readLE, ih (n / 256) r hlt]
    show some (n % 256 + 256 * (n / 256), r) = some (n, r)
    have hmd : n % 256 + 256 * (n / 256) = n := by omega
    rw [hmd]

theorem readBytesN_append (l r : List Nat) :
    readBytesN l.length (l ++ r) = some (l, r) := by
  induction l with
  | nil => simp [readBytesN]
  | cons b t ih => simp [readBytesN, ih]

theorem readCerts_append (cs : List (List Nat)) (r : List Nat)
    (h : ∀ c ∈ cs, c.length < 256 ^ 8) :
    readCerts cs.length ((cs.map fun c => natLE 8 c.length ++ c).flatten ++ r) =
      some (cs, r) := by
  induction cs with
  | nil => simp [readCerts]
  | cons c t ih =>
    have hc : c.length < 256 ^ 8 := h c (by simp)
    have ht : ∀ x ∈ t, x.length < 256 ^ 8 := fun x hx => h x (by simp [hx])
    have ih2 := ih ht
    simp only [List.map_cons, List.flatten_cons, List.length_cons, List.append_assoc]
    rw [readCerts, readCert]
    rw [readLE_natLE 8 c.length _ hc]
    simp only [Option.some_bind]
    rw [readBytesN_append]
    simp only [Option.some_bind]
    rw [ih2]
    simp

theorem bincodeParams_ne_nil (p : EncryptionParams) : bincodeParams p ≠ [] := by
  simp [bincodeParams, natLE]

theorem bincodeRead_roundtrip (p : EncryptionParams)
    (hn : p.certs.length < 256 ^ 8) (hc : ∀ c ∈ p.certs, c.length < 256 ^ 8) :
    bincodeReadParams (bincodeParams p) = some p := by
  obtain ⟨method, algo, certs⟩ := p
  simp only at hn hc
  have hm : methodIdx method < 256 ^ 4 := by cases method <;> decide
  have ha : algoIdx algo < 256 ^ 4 := by cases algo <;> decide
  have hcs : readCerts certs.length ((certs.map fun c => natLE 8 c.length ++ c).flatten) =
      some (certs, []) := by
    have h0 := readCerts_append certs [] hc
    simpa using h0
  cases method <;> cases algo <;>
    simp [bincodeParams, bincodeReadParams, readMethod, readAlgo, methodIdx, algoIdx,
      List.append_assoc, readLE_natLE 4 0 _ (by decide), readLE_natLE 4 1 _ (by decide),
      readLE_natLE 8 certs.length _ hn, hcs]

theorem deserialize_serialize (p : EncryptionParams)
    (hn : p.certs.length < 256 ^ 8) (hc : ∀ c ∈ p.certs, c.length < 256 ^ 8) :
    deserializeParams (serializeParams p) = .ok p := by
  have h1 : deserializeParams (1 :: bincodeParams p) =
      if (1 : Nat) = 1 ∧ bincodeParams p ≠ [] then
        match bincodeReadParams (bincodeParams p) with
        | some q => .ok q
        | none => .error "Failed to deserialize encryption params"
      else .error ("Unknown encryption params version: " ++ toString (1 : Nat)) := rfl
  show deserializeParams (1 :: bincodeParams p) = .ok p
  rw [h1, if_pos ⟨rfl, bincodeParams_ne_nil p⟩, bincodeRead_roundtrip p hn hc]

/-- C3: deserializing the output of serialize succeeds and returns the
original parameters, for every method, every algorithm and every certificate
byte-sequence list (the bounds say that list lengths fit in the u64 length
fields, as Rust `usize` values do). -/
theorem C3_roundtrip (p : EncryptionParams)
    (hn : p.certs.length < 256 ^ 8) (hc : ∀ c ∈ p.certs, c.length < 256 ^ 8) :
    deserializeParams (serializeParams p) = .ok p :=
  deserialize_serialize p hn hc

/-- Witness for C3 at concrete parameters. -/
theorem C3_roundtrip_witness :
    deserializeParams (serializeParams paramsPGP) = .ok paramsPGP :=
  C3_roundtrip paramsPGP (by decide) (by decide)

/-- C7: serialize emits 0x01 as its first byte; deserialize succeeds only when
the first byte is 0x01 and at least one byte follows it; any other leading
byte, or a payload of length at most one, makes deserialize fail. -/
theorem C7_version_envelope :
    (∀ p, (serializeParams p).head? = some 1) ∧
    (∀ b v, deserializeParams b = .ok v → b.head? = some 1 ∧ 2 ≤ b.length) ∧
    (∀ h t, h ≠ 1 → ∃ e, deserializeParams (h :: t) = .error e) ∧
    (∀ b, b.length ≤ 1 → ∃ e, deserializeParams b = .error e) := by
  have hstep : ∀ (w : Nat) (rest : List Nat), deserializeParams (w :: rest) =
      if w = 1 ∧ rest ≠ [] then
        match bincodeReadParams rest with
        | some q => .ok q
        | none => .error "Failed to deserialize encryption params"
      else .error ("Unknown encryption params version: " ++ toString w) :=
    fun w rest => rfl
  refine ⟨fun p => rfl, ?_, ?_, ?_⟩
  · intro b v h
    cases b with
    | nil => exact absurd h (by intro hh; exact Except.noConfusion hh)
    | cons w rest =>
      rw [hstep] at h
      by_cases hcond : w = 1 ∧ rest ≠ []
      · obtain ⟨h1, h2⟩ := hcond
        subst h1
        refine ⟨rfl, ?_⟩
        cases rest with
        | nil => exact absurd rfl h2
        | cons a t => simp
      · rw [if_neg hcond] at h
        exact absurd h (by intro hh; exact Except.noConfusion hh)
  · intro h t hne
    refine ⟨"Unknown encryption params version: " ++ toString h, ?_⟩
    rw [hstep, if_neg ?_]
    intro hcond
    exact hne hcond.1
  · intro b hb
    cases b with
    | nil => exact ⟨"Failed to read version while deserializing encryption params", rfl⟩
    | cons w rest =>
      cases rest with
      | nil =>
        refine ⟨"Unknown encryption params version: " ++ toString w, ?_⟩
        rw [hstep, if_neg ?_]
        intro hcond
        exact hcond.2 rfl
      | cons a t => simp at hb

/-- Witness for C7 at concrete inputs: the version byte of a serialized
record, a successful deserialization, failure after flipping the version byte
to 0x02, and failure on the one-byte payload. -/
theorem C7_version_envelope_witness :
    (serializeParams paramsPGP).head? = some 1 ∧
    ((serializeParams paramsPGP).head? = some 1 ∧ 2 ≤ (serializeParams paramsPGP).length) ∧
    (∃ e, deserializeParams (2 :: (serializeParams paramsPGP).tail) = .error e) ∧
    (∃ e, deserializeParams [1] = .error e) :=
  ⟨C7_version_envelope.1 paramsPGP,
   C7_version_envelope.2.1 (serializeParams paramsPGP) paramsPGP
     (deserialize_serialize paramsPGP (by decide) (by decide)),
   C7_version_envelope.2.2.1 2 (serializeParams paramsPGP).tail (by decide),
   C7_version_envelope.2.2.2 [1] (by decide)⟩


/-- C2 (amended): the detector returns true iff the top-level Content-Type is
application/pkcs7-mime or application/pkcs7-signature, or application/
octet-stream with an attachment filename whose extension after the last dot
is exactly one of p7m, p7s, p7c, p7z in lower case (this comparison is
case-sensitive), or multipart/encrypted; type and subtype comparisons are
ASCII case-insensitive, and a missing Content-Type yields false. -/
theorem C2_detector_characterization (m : ParsedMessage) :
    is_encrypted m = true ↔
      ∃ ct, m.content_type = some ct ∧
        ((ciStr ct.c_type "application" = true ∧
            (ciStr (ct.c_subtype.getD "") "pkcs7-mime" = true ∨
              ciStr (ct.c_subtype.getD "") "pkcs7-signature" = true)) ∨
          (ciStr ct.c_type "application" = true ∧
            ciStr (ct.c_subtype.getD "") "octet-stream" = true ∧
            ∃ name pre ext, m.attachment_name = some name ∧
              rsplitDot name.toList = some (pre, ext) ∧
              (ext = "p7m".toList ∨ ext = "p7s".toList ∨ ext = "p7c".toList ∨
                ext = "p7z".toList)) ∨
          (ciStr ct.c_type "multipart" = true ∧
            ciStr (ct.c_subtype.getD "") "encrypted" = true)) := by
  obtain ⟨oct, an, hs, raw, off⟩ := m
  cases oct with
  | none => simp [is_encrypted]
  | some ct =>
    cases an with
    | none =>
      simp only [is_encrypted, Option.some.injEq, Bool.or_eq_true, Bool.and_eq_true]
      aesop
    | some name =>
      cases hsp : rsplitDot name.toList with
      | none =>
        simp only [is_encrypted, hsp, Option.some.injEq, Bool.or_eq_true, Bool.and_eq_true]
        aesop
      | some pe =>
        obtain ⟨pre0, ext0⟩ := pe
        simp only [is_encrypted, hsp, Option.some.injEq, Bool.or_eq_true, Bool.and_eq_true,
          beq_iff_eq]
        aesop

/-- C2 counterexample: a message with Content-Type application/octet-stream
and attachment name "foo.P7M" satisfies the claim's predicate (case-
insensitive extension) but the source detector returns false: the extension
comparison in the code is case-sensitive. -/
theorem C2_counterexample :
    claimed_is_encrypted msgUpperP7M = true ∧ is_encrypted msgUpperP7M = false := by
  constructor <;> decide

/-- C1 (amended): `encrypt` itself performs no already-encrypted check and
never returns the AlreadyEncrypted variant, for any external-crypto behavior,
any message (already encrypted or not) and any parameters; the pass-through
of already-encrypted messages is the caller's responsibility, guided by the
separate detector. -/
theorem recipLoop_not_already (O : CryptOracles) (key : List Nat) :
    ∀ certs idx acc, recipLoop O key idx certs acc ≠ RunResult.err .AlreadyEncrypted := by
  intro certs
  induction certs with
  | nil =>
    intro idx acc h
    simp [recipLoop] at h
  | cons c t ih =>
    intro idx acc h
    simp only [recipLoop] at h
    (repeat' split at h) <;> simp_all

theorem smime_not_already (O : CryptOracles) (params : EncryptionParams) (inner : List Nat) :
    smimeContentInfo O params inner ≠ RunResult.err .AlreadyEncrypted := by
  intro h
  unfold smimeContentInfo at h
  cases hr : recipLoop O (O.symKey params.algo) 0 params.certs [] with
  | err e =>
    rw [hr] at h
    injection h with h2
    exact recipLoop_not_already O (O.symKey params.algo) params.certs 0 [] (h2 ▸ hr)
  | crashed msg =>
    rw [hr] at h
    exact RunResult.noConfusion h
  | ok infos =>
    rw [hr] at h
    (repeat' split at h) <;> simp_all

theorem C1_encrypt_never_already (O : CryptOracles) (m : ParsedMessage)
    (params : EncryptionParams) :
    (encrypt O m params == RunResult.err .AlreadyEncrypted) = false := by
  rw [beq_eq_false_iff_ne]
  unfold encrypt
  cases params.method <;> intro h <;> (repeat' split at h) <;> try simp_all
  rename_i e heq
  exact smime_not_already O params (innerMessage m) heq

/-- C1 counterexample: a message whose top-level Content-Type is
multipart/encrypted is accepted by the detector, yet `encrypt` on it does not
fail with AlreadyEncrypted (here, under a concrete external-crypto
assignment, it succeeds and re-wraps the message). -/
theorem C1_counterexample :
    is_encrypted msgMultipartEncrypted = true ∧
      encrypt oraclePGP msgMultipartEncrypted paramsPGP ≠
        RunResult.err .AlreadyEncrypted := by
  constructor
  · decide
  · decide

theorem splitHeadersGo_eq (raw : List Nat) (hs : List HeaderModel) :
    splitHeadersGo raw hs =
      (((hs.filter fun h => is_mime_header h.hname).map (headerSlice raw)).flatten,
        ((hs.filter fun h => !is_mime_header h.hname).map (headerSlice raw)).flatten) := by
  induction hs with
  | nil => rfl
  | cons h t ih =>
    by_cases hm : is_mime_header h.hname <;>
      simp [splitHeadersGo, ih, hm, List.filter_cons]

/-- C6: the splitter phase copies each root-part header's byte span into
exactly one of the two buffers, MIME headers into the inner one and the rest
into the outer one, in original order; the inner buffer then continues with
CRLF and the raw body; together the header lines written to the two buffers
are a permutation of the root part's original header lines. -/
theorem C6_splitter_partition (m : ParsedMessage) :
    (splitHeaders m).1 =
        ((m.headers.filter fun h => is_mime_header h.hname).map
          (headerSlice m.raw_message)).flatten ∧
    (splitHeaders m).2 =
        ((m.headers.filter fun h => !is_mime_header h.hname).map
          (headerSlice m.raw_message)).flatten ∧
    List.Perm
      ((m.headers.filter fun h => is_mime_header h.hname).map (headerSlice m.raw_message)
        ++ (m.headers.filter fun h => !is_mime_header h.hname).map
            (headerSlice m.raw_message))
      (m.headers.map (headerSlice m.raw_message)) ∧
    innerMessage m =
      ((m.headers.filter fun h => is_mime_header h.hname).map
          (headerSlice m.raw_message)).flatten ++ strBytes "\r\n" ++
        m.raw_message.drop m.raw_body_offset := by
  have hgo := splitHeadersGo_eq m.raw_message m.headers
  refine ⟨?_, ?_, ?_, ?_⟩
  · show (splitHeadersGo m.raw_message m.headers).1 = _
    rw [hgo]
  · show (splitHeadersGo m.raw_message m.headers).2 = _
    rw [hgo]
  · have hperm := List.filter_append_perm (fun h => is_mime_header h.hname) m.headers
    have := hperm.map (headerSlice m.raw_message)
    simpa [List.map_append] using this
  · show (splitHeadersGo m.raw_message m.headers).1 ++ _ ++ _ = _
    rw [hgo]

theorem cbcBlocks_length (E : List Nat → List Nat) (hE : ∀ b, (E b).length = 16) :
    ∀ n prev l, (cbcBlocks E n prev l).length = 16 * n := by
  intro n
  induction n with
  | zero => intro prev l; rfl
  | succ n ih =>
    intro prev l
    simp only [cbcBlocks, List.length_append, hE, ih]
    ring

/-- C9: AES-CBC with PKCS#7 padding (either key size) produces a ciphertext of
exactly n + 16 - (n mod 16) bytes for an n-byte plaintext: at least one byte
of padding, a positive multiple of the 16-byte block size, strictly longer
than the plaintext. The external AES core is any length-preserving block
function. -/
theorem C9_aes_ciphertext_length (O : CryptOracles) (algo : Algorithm)
    (key iv contents : List Nat)
    (hE : ∀ b, (O.aesBlock algo key b).length = 16) :
    (algorithmEncrypt O algo key iv contents).length =
        contents.length + (16 - contents.length % 16) ∧
    16 ∣ (algorithmEncrypt O algo key iv contents).length ∧
    contents.length < (algorithmEncrypt O algo key iv contents).length := by
  have hpad : (pkcs7Pad contents).length =
      contents.length + (16 - contents.length % 16) := by
    simp [pkcs7Pad]
  have hdvd : (pkcs7Pad contents).length % 16 = 0 := by
    rw [hpad]
    omega
  have hlen : ∀ ivx, (cbcEncrypt (O.aesBlock algo key) ivx (pkcs7Pad contents)).length =
      (pkcs7Pad contents).length := by
    intro ivx
    rw [cbcEncrypt, cbcBlocks_length (O.aesBlock algo key) hE]
    omega
  have hmain : (algorithmEncrypt O algo key iv contents).length =
      contents.length + (16 - contents.length % 16) := by
    cases algo <;> simp only [algorithmEncrypt] <;> rw [hlen, hpad]
  refine ⟨hmain, ?_, ?_⟩
  · rw [hmain]
    have := Nat.mod_lt contents.length (show 0 < 16 by decide)
    omega
  · rw [hmain]
    have := Nat.mod_lt contents.length (show 0 < 16 by decide)
    omega

/-- Witness for C9 at a concrete block core and plaintext. -/
theorem C9_aes_ciphertext_length_witness :
    (algorithmEncrypt oraclePGP .Aes128 [0] [0] [1, 2, 3]).length =
        3 + (16 - 3 % 16) ∧
    16 ∣ (algorithmEncrypt oraclePGP .Aes128 [0] [0] [1, 2, 3]).length ∧
    3 < (algorithmEncrypt oraclePGP .Aes128 [0] [0] [1, 2, 3]).length :=
  C9_aes_ciphertext_length oraclePGP .Aes128 [0] [0] [1, 2, 3]
    (fun b => by simp [oraclePGP])

theorem pemLoop_ok_some_ne_nil (P : ExtParsers) :
    ∀ fuel l method certs mcs,
      (method.isSome = true → certs ≠ []) →
      pemLoop P fuel l method certs = .ok (some mcs) → mcs.2 ≠ [] := by
  intro fuel
  induction fuel with
  | zero =>
    intro l method certs mcs hinv h
    simp [pemLoop] at h
  | succ fuel ih =>
    intro l method certs mcs hinv h
    rw [pemLoop] at h
    cases hps : pemStart l with
    | none => simp [hps] at h
    | some l1 =>
      simp only [hps] at h
      cases hrt : readTag l1 [] with
      | none => simp [hrt] at h
      | some tagRest =>
        simp only [hrt] at h
        by_cases htag : tagRest.1 = []
        · rw [if_pos htag] at h
          injection h with h2
          cases method with
          | none => simp at h2
          | some m0 =>
            simp only [Option.map_some'] at h2
            injection h2 with h3
            rw [← h3]
            exact hinv rfl
        · rw [if_neg htag] at h
          cases hcl : classifyTag method tagRest.1 with
          | error e => simp [hcl] at h
          | ok mo =>
            simp only [hcl] at h
            cases mo with
            | none => exact ih _ _ _ _ hinv h
            | some m1 =>
              cases hb : P.b64 (collectB64 tagRest.2 false []).1 with
              | none => simp [hb] at h
              | some cert =>
                simp only [hb] at h
                cases hv : validateCert P m1 cert with
                | some e => simp [hv] at h
                | none =>
                  simp only [hv] at h
                  exact ih _ _ _ _ (fun _ => by simp) h

/-- C5: try_parse_certs tries the PEM scan first (propagating its error or
returning its result), then the whole blob as raw DER X.509 giving S/MIME
with exactly one key, then as raw binary OpenPGP giving PGP with exactly one
key, and otherwise fails with the fixed error string; every success carries a
non-empty key sequence. -/
theorem C5_try_parse_order (P : ExtParsers) (bytes : List Nat) :
    (∀ r, try_parse_certs P bytes = .ok r → r.2 ≠ []) ∧
    (∀ e, try_parse_pem P bytes = .error e → try_parse_certs P bytes = .error e) ∧
    (∀ r, try_parse_pem P bytes = .ok (some r) → try_parse_certs P bytes = .ok r) ∧
    (try_parse_pem P bytes = .ok none →
      try_parse_certs P bytes =
        if P.x509Err bytes = none then .ok (.SMIME, [bytes])
        else if P.pgpErr bytes = none then .ok (.PGP, [bytes])
        else .error "Could not find any valid certificates") := by
  refine ⟨?_, ?_, ?_, ?_⟩
  · intro r hr
    unfold try_parse_certs at hr
    cases hp : try_parse_pem P bytes with
    | error e => simp [hp] at hr
    | ok o =>
      simp only [hp] at hr
      cases o with
      | some r2 =>
        injection hr with h2
        rw [← h2]
        unfold try_parse_pem at hp
        exact pemLoop_ok_some_ne_nil P (bytes.length + 1) bytes none [] r2
          (fun hh => by simp at hh) hp
      | none =>
        by_cases hx : P.x509Err bytes = none
        · rw [if_pos hx] at hr
          injection hr with h2
          rw [← h2]
          simp
        · rw [if_neg hx] at hr
          by_cases hg : P.pgpErr bytes = none
          · rw [if_pos hg] at hr
            injection hr with h2
            rw [← h2]
            simp
          · rw [if_neg hg] at hr
            exact absurd hr (by simp)
  · intro e he
    unfold try_parse_certs
    rw [he]
  · intro r hrr
    unfold try_parse_certs
    rw [hrr]
  · intro hn
    unfold try_parse_certs
    rw [hn]

/-- Witness for C5: a non-PEM blob that neither raw parser accepts yields the
fixed error; with an accepting X.509 parser it yields S/MIME with the single
key, which is non-empty. -/
theorem C5_try_parse_order_witness :
    try_parse_certs extNone (strBytes "x") = .error "Could not find any valid certificates" ∧
    try_parse_certs extAll (strBytes "y") = .ok (.SMIME, [strBytes "y"]) ∧
    ((.SMIME, [strBytes "y"]) : EncryptionMethod × List (List Nat)).2 ≠ [] := by
  refine ⟨?_, ?_, ?_⟩
  · have h := (C5_try_parse_order extNone (strBytes "x")).2.2.2 (by rfl)
    rw [h]
    rfl
  · have h := (C5_try_parse_order extAll (strBytes "y")).2.2.2 (by rfl)
    rw [h]
    rfl
  · exact (C5_try_parse_order extAll (strBytes "y")).1 (.SMIME, [strBytes "y"])
      (by
        have h := (C5_try_parse_order extAll (strBytes "y")).2.2.2 (by rfl)
        rw [h]
        rfl)

theorem pemStart_ws (ws l : List Nat) (hws : ∀ c ∈ ws, isWsB c = true) :
    pemStart (ws ++ 45 :: l) = some l := by
  induction ws with
  | nil => rfl
  | cons c t ih =>
    have hc : isWsB c = true := hws c (by simp)
    have ht : ∀ x ∈ t, isWsB x = true := fun x hx => hws x (by simp [hx])
    simp only [List.cons_append, pemStart, hc, if_true]
    exact ih ht

theorem readTag_nonAscii (pre : List Nat) (c : Nat) (suffix : List Nat)
    (hpre : ∀ x ∈ pre, x ≠ 10 ∧ x < 128) (hc : 128 ≤ c) :
    ∀ acc, readTag (pre ++ c :: suffix) acc = none := by
  induction pre with
  | nil =>
    intro acc
    have h45 : ¬(c = 45) := by omega
    have h10 : ¬(c = 10) := by omega
    have h128 : ¬(c < 128) := by omega
    simp only [List.nil_append, readTag, if_neg h45, if_neg h10, if_neg h128]
  | cons x t ih =>
    intro acc
    have hx : x ≠ 10 ∧ x < 128 := hpre x (by simp)
    have ht : ∀ y ∈ t, y ≠ 10 ∧ y < 128 := fun y hy => hpre y (by simp [hy])
    by_cases h45 : x = 45
    · simp only [List.cons_append, readTag, h45, if_true]
      exact ih ht _
    · simp only [List.cons_append, readTag, if_neg h45, if_neg hx.1,
        if_pos hx.2]
      exact ih ht _

/-- C10: a blob whose first non-whitespace byte is a dash but whose tag line
holds a non-ASCII byte makes try_parse_pem return a silent no-match (not an
error), so try_parse_certs falls through to trying the entire blob as raw DER
X.509, then as raw binary OpenPGP, then the generic error. -/
theorem C10_nonascii_tag_fallthrough (P : ExtParsers) (ws pre suffix : List Nat)
    (c : Nat) (hws : ∀ x ∈ ws, isWsB x = true)
    (hpre : ∀ x ∈ pre, x ≠ 10 ∧ x < 128) (hc : 128 ≤ c) :
    try_parse_pem P (ws ++ 45 :: pre ++ c :: suffix) = .ok none ∧
    try_parse_certs P (ws ++ 45 :: pre ++ c :: suffix) =
      (if P.x509Err (ws ++ 45 :: pre ++ c :: suffix) = none then
        .ok (.SMIME, [ws ++ 45 :: pre ++ c :: suffix])
      else if P.pgpErr (ws ++ 45 :: pre ++ c :: suffix) = none then
        .ok (.PGP, [ws ++ 45 :: pre ++ c :: suffix])
      else .error "Could not find any valid certificates") := by
  have hpem : try_parse_pem P (ws ++ 45 :: pre ++ c :: suffix) = .ok none := by
    unfold try_parse_pem
    rw [pemLoop]
    rw [show ws ++ 45 :: pre ++ c :: suffix = ws ++ 45 :: (pre ++ c :: suffix) by simp]
    rw [pemStart_ws ws (pre ++ c :: suffix) hws]
    simp only [readTag_nonAscii pre c suffix hpre hc]
  refine ⟨hpem, ?_⟩
  unfold try_parse_certs
  rw [hpem]

/-- Witness for C10 at a concrete blob with byte 0xC8 inside the tag line. -/
theorem C10_nonascii_tag_fallthrough_witness :
    try_parse_pem extNone ([] ++ 45 :: strBytes "----BEGIN CERT" ++ 200 :: []) = .ok none ∧
    try_parse_certs extNone ([] ++ 45 :: strBytes "----BEGIN CERT" ++ 200 :: []) =
      (if extNone.x509Err ([] ++ 45 :: strBytes "----BEGIN CERT" ++ 200 :: []) = none then
        .ok (.SMIME, [[] ++ 45 :: strBytes "----BEGIN CERT" ++ 200 :: []])
      else if extNone.pgpErr ([] ++ 45 :: strBytes "----BEGIN CERT" ++ 200 :: []) = none then
        .ok (.PGP, [[] ++ 45 :: strBytes "----BEGIN CERT" ++ 200 :: []])
      else .error "Could not find any valid certificates") :=
  C10_nonascii_tag_fallthrough extNone [] (strBytes "----BEGIN CERT") [] 200
    (by intro x hx; cases hx) (by decide) (by decide)

theorem readTag_line (t : List Nat) (rest : List Nat)
    (ht : ∀ x ∈ t, x ≠ 10 ∧ x < 128) :
    ∀ acc, readTag (t ++ 10 :: rest) acc =
      some (acc.reverse ++ (t.filter fun x => !(x == 45)).map toUpperB, rest) := by
  induction t with
  | nil =>
    intro acc
    simp [readTag]
  | cons x t' ih =>
    intro acc
    have hx : x ≠ 10 ∧ x < 128 := ht x (by simp)
    have ht' : ∀ y ∈ t', y ≠ 10 ∧ y < 128 := fun y hy => ht y (by simp [hy])
    by_cases h45 : x = 45
    · simp only [List.cons_append, readTag, h45, if_true, List.append_eq]
      rw [ih ht' acc]
      simp
    · simp only [List.cons_append, readTag, if_neg h45, if_neg hx.1, if_pos hx.2,
        List.append_eq]
      rw [ih ht' (toUpperB x :: acc)]
      simp [h45]

theorem collectB64_body (body : List Nat) (hb : ∀ x ∈ body, x ≠ 45) :
    ∀ l acc, collectB64 (body ++ l) false acc =
      collectB64 l false ((body.filter fun x => !isWsB x).reverse ++ acc) := by
  induction body with
  | nil => intro l acc; simp
  | cons x t ih =>
    intro l acc
    have hx : x ≠ 45 := hb x (by simp)
    have ht : ∀ y ∈ t, y ≠ 45 := fun y hy => hb y (by simp [hy])
    by_cases h10 : x = 10
    · have hif : ¬((10 : Nat) = 45) := by decide
      simp only [List.cons_append, collectB64, h10, if_neg hif, Bool.false_eq_true,
        if_false, List.append_eq]
      rw [ih ht l acc]
      have hw10 : isWsB 10 = true := by decide
      simp [h10, hw10]
    · by_cases hws : isWsB x = true
      · simp only [List.cons_append, collectB64, if_neg hx, if_neg h10, hws, if_true,
          List.append_eq]
        rw [ih ht l acc]
        simp [hws]
      · simp only [List.cons_append, collectB64, if_neg hx, if_neg h10,
          if_neg (by simp [hws] : ¬(isWsB x = true)), List.append_eq]
        rw [ih ht l (x :: acc)]
        simp [hws]

theorem collectB64_end (e : List Nat) (rest : List Nat) (he : ∀ x ∈ e, x ≠ 10) :
    ∀ acc, collectB64 (e ++ 10 :: rest) true acc =
      (acc.reverse ++ e.filter fun x => !(x == 45) && !isWsB x, rest) := by
  induction e with
  | nil =>
    intro acc
    simp [collectB64]
  | cons x t ih =>
    intro acc
    have hx : x ≠ 10 := he x (by simp)
    have ht : ∀ y ∈ t, y ≠ 10 := fun y hy => he y (by simp [hy])
    by_cases h45 : x = 45
    · simp only [List.cons_append, collectB64, h45, if_true, List.append_eq]
      rw [ih ht acc]
      simp [h45]
    · by_cases hws : isWsB x = true
      · simp only [List.cons_append, collectB64, if_neg h45, if_neg hx, hws, if_true,
          List.append_eq]
        rw [ih ht acc]
        simp [hws]
      · simp only [List.cons_append, collectB64, if_neg h45, if_neg hx,
          if_neg (by simp [hws] : ¬(isWsB x = true)), List.append_eq]
        rw [ih ht (x :: acc)]
        simp [h45, hws]

theorem classifyTag_nil (method : Option EncryptionMethod) :
    classifyTag method [] = .ok none := rfl

theorem classifyTag_mix (m1 m2 : EncryptionMethod) (tag : List Nat)
    (h : classifyTag none tag = .ok (some m2)) (hne : m1 ≠ m2) :
    classifyTag (some m1) tag = .error "Cannot mix PGP and S/MIME certificates" := by
  unfold classifyTag at h ⊢
  by_cases hcert : containsSeq certTagBytes tag = true
  · rw [if_pos hcert] at h ⊢
    rw [if_neg (by simp)] at h
    injection h with h2
    injection h2 with h3
    cases m1 with
    | SMIME => exact absurd h3 hne
    | PGP => rw [if_pos rfl]
  · rw [if_neg hcert] at h ⊢
    by_cases hpgp : containsSeq pgpTagBytes tag = true
    · rw [if_pos hpgp] at h ⊢
      rw [if_neg (by simp)] at h
      injection h with h2
      injection h2 with h3
      cases m1 with
      | PGP => exact absurd h3 hne
      | SMIME => rw [if_pos rfl]
    · rw [if_neg hpgp] at h
      exact absurd h (by simp)

theorem classifyTag_some_ne_nil (method : Option EncryptionMethod) (tag : List Nat)
    (m : EncryptionMethod) (h : classifyTag method tag = .ok (some m)) : tag ≠ [] := by
  intro hnil
  subst hnil
  rw [classifyTag_nil] at h
  injection h with h2
  exact Option.noConfusion h2

theorem collectB64_block (b1 e1 Z : List Nat)
    (hb1 : ∀ x ∈ b1, x ≠ 45) (he1 : ∀ x ∈ e1, x ≠ 10) :
    collectB64 (b1 ++ 45 :: (e1 ++ 10 :: Z)) false [] =
      ((b1.filter fun x => !isWsB x) ++ (e1.filter fun x => !(x == 45) && !isWsB x),
        Z) := by
  rw [collectB64_body b1 hb1 (45 :: (e1 ++ 10 :: Z)) []]
  rw [show collectB64 (45 :: (e1 ++ 10 :: Z)) false
      ((b1.filter fun x => !isWsB x).reverse ++ []) =
    collectB64 (e1 ++ 10 :: Z) true
      ((b1.filter fun x => !isWsB x).reverse ++ []) from rfl]
  rw [collectB64_end e1 Z he1 _]
  simp

theorem pemLoop_mix (P : ExtParsers) (m1 m2 : EncryptionMethod)
    (ws1 t1 b1 e1 ws2 t2 rest cert : List Nat)
    (hws1 : ∀ x ∈ ws1, isWsB x = true)
    (ht1 : ∀ x ∈ t1, x ≠ 10 ∧ x < 128)
    (hb1 : ∀ x ∈ b1, x ≠ 45)
    (he1 : ∀ x ∈ e1, x ≠ 10)
    (hws2 : ∀ x ∈ ws2, isWsB x = true)
    (ht2 : ∀ x ∈ t2, x ≠ 10 ∧ x < 128)
    (hcls1 : classifyTag none ((t1.filter fun x => !(x == 45)).map toUpperB) =
      .ok (some m1))
    (hcls2 : classifyTag none ((t2.filter fun x => !(x == 45)).map toUpperB) =
      .ok (some m2))
    (hne : m1 ≠ m2)
    (hdec : P.b64 ((b1.filter fun x => !isWsB x) ++
        (e1.filter fun x => !(x == 45) && !isWsB x)) = some cert)
    (hval : validateCert P m1 cert = none) :
    ∀ fuel, pemLoop P (fuel + 1 + 1)
        (ws1 ++ 45 :: (t1 ++ 10 :: (b1 ++ 45 :: (e1 ++ 10 ::
          (ws2 ++ 45 :: (t2 ++ 10 :: rest)))))) none [] =
      .error "Cannot mix PGP and S/MIME certificates" := by
  intro fuel
  have htag1 : (t1.filter fun x => !(x == 45)).map toUpperB ≠ [] :=
    classifyTag_some_ne_nil none _ m1 hcls1
  have htag2 : (t2.filter fun x => !(x == 45)).map toUpperB ≠ [] :=
    classifyTag_some_ne_nil none _ m2 hcls2
  rw [pemLoop]
  simp only [pemStart_ws ws1 _ hws1, readTag_line t1 _ ht1, List.reverse_nil,
    List.nil_append]
  rw [if_neg htag1, hcls1]
  simp only [collectB64_block b1 e1 _ hb1 he1, hdec, hval]
  rw [pemLoop]
  simp only [pemStart_ws ws2 _ hws2, readTag_line t2 _ ht2, List.reverse_nil,
    List.nil_append]
  rw [if_neg htag2, classifyTag_mix m1 m2 _ hcls2 hne]

/-- C4 (amended): a PEM bundle whose first two classified blocks disagree on
method — a CERTIFICATE-tagged block and a PGP-tagged block in either order —
fails with "Cannot mix PGP and S/MIME certificates", provided the first
block's collected body base64-decodes and validates under its method;
otherwise the first block's own decode/validation error is returned before
the second tag is ever read. -/
theorem C4_mixed_pem_rejected (P : ExtParsers) (m1 m2 : EncryptionMethod)
    (ws1 t1 b1 e1 ws2 t2 rest cert : List Nat)
    (hws1 : ∀ x ∈ ws1, isWsB x = true)
    (ht1 : ∀ x ∈ t1, x ≠ 10 ∧ x < 128)
    (hb1 : ∀ x ∈ b1, x ≠ 45)
    (he1 : ∀ x ∈ e1, x ≠ 10)
    (hws2 : ∀ x ∈ ws2, isWsB x = true)
    (ht2 : ∀ x ∈ t2, x ≠ 10 ∧ x < 128)
    (hcls1 : classifyTag none ((t1.filter fun x => !(x == 45)).map toUpperB) =
      .ok (some m1))
    (hcls2 : classifyTag none ((t2.filter fun x => !(x == 45)).map toUpperB) =
      .ok (some m2))
    (hne : m1 ≠ m2)
    (hdec : P.b64 ((b1.filter fun x => !isWsB x) ++
        (e1.filter fun x => !(x == 45) && !isWsB x)) = some cert)
    (hval : validateCert P m1 cert = none) :
    try_parse_certs P (ws1 ++ 45 :: (t1 ++ 10 :: (b1 ++ 45 :: (e1 ++ 10 ::
        (ws2 ++ 45 :: (t2 ++ 10 :: rest)))))) =
      .error "Cannot mix PGP and S/MIME certificates" := by
  have hpem : try_parse_pem P (ws1 ++ 45 :: (t1 ++ 10 :: (b1 ++ 45 :: (e1 ++ 10 ::
      (ws2 ++ 45 :: (t2 ++ 10 :: rest)))))) =
      .error "Cannot mix PGP and S/MIME certificates" := by
    unfold try_parse_pem
    have hpos : 0 < (ws1 ++ 45 :: (t1 ++ 10 :: (b1 ++ 45 :: (e1 ++ 10 ::
        (ws2 ++ 45 :: (t2 ++ 10 :: rest)))))).length := by
      simp
    obtain ⟨k, hk⟩ := Nat.exists_eq_succ_of_ne_zero (Nat.pos_iff_ne_zero.mp hpos)
    rw [hk]
    exact pemLoop_mix P m1 m2 ws1 t1 b1 e1 ws2 t2 rest cert hws1 ht1 hb1 he1 hws2
      ht2 hcls1 hcls2 hne hdec hval k
  unfold try_parse_certs
  rw [hpem]

/-- Witness for C4 at a concrete two-block bundle: one CERTIFICATE block with
a decodable body accepted by the validator, then one PGP block. -/
theorem C4_mixed_pem_rejected_witness :
    try_parse_certs extAll ([] ++ 45 :: (strBytes "----BEGIN CERTIFICATE-----" ++ 10 ::
        (strBytes "AB" ++ 45 :: (strBytes "----END CERTIFICATE-----" ++ 10 ::
        ([] ++ 45 :: (strBytes "----BEGIN PGP PUBLIC KEY BLOCK-----" ++ 10 :: [])))))) =
      .error "Cannot mix PGP and S/MIME certificates" :=
  C4_mixed_pem_rejected extAll .SMIME .PGP [] (strBytes "----BEGIN CERTIFICATE-----")
    (strBytes "AB") (strBytes "----END CERTIFICATE-----") []
    (strBytes "----BEGIN PGP PUBLIC KEY BLOCK-----") [] b64cert
    (by intro x hx; cases hx) (by decide) (by decide) (by decide)
    (by intro x hx; cases hx) (by decide) rfl rfl (by decide) rfl rfl

/-- C4 counterexample: a bundle containing both a BEGIN CERTIFICATE block and
a BEGIN PGP block, where the first block's body is "!": the scan fails with
the base64 error on the first block, never reaching the PGP tag, so the
mixing error is not produced even though both methods appear. -/
theorem C4_counterexample :
    try_parse_certs extAll mixedBadB64 = .error "Failed to decode base64 certificate." ∧
    try_parse_certs extAll mixedBadB64 ≠ .error "Cannot mix PGP and S/MIME certificates" := by
  constructor
  · rfl
  · intro h
    rw [show try_parse_certs extAll mixedBadB64 =
        .error "Failed to decode base64 certificate." from rfl] at h
    injection h with h2
    simp at h2

theorem rdBytes_enc (l r : List Nat) : rdBytes (encBytes l ++ r) = some (l, r) := by
  simp only [encBytes, List.cons_append, rdBytes]
  exact readBytesN_append l r

theorem rdRecip_enc (x : RecipientInfoModel) (r : List Nat) :
    rdRecip (encRecip x ++ r) = some (x, r) := by
  obtain ⟨v, a, b, c, d, e⟩ := x
  simp [encRecip, rdRecip, List.append_assoc, rdBytes_enc]

theorem rdRecipN_enc (xs : List RecipientInfoModel) (r : List Nat) :
    rdRecipN xs.length ((xs.map encRecip).flatten ++ r) = some (xs, r) := by
  induction xs with
  | nil => simp [rdRecipN]
  | cons x t ih =>
    simp [rdRecipN, List.append_assoc, rdRecip_enc, ih]

theorem rdEnv_enc (e : EnvelopedDataModel) (r : List Nat) :
    rdEnv (encEnv e ++ r) = some (e, r) := by
  obtain ⟨v, rs, ⟨a, b, c, d⟩⟩ := e
  simp [encEnv, encRecipList, rdEnv, List.append_assoc, rdRecipN_enc, rdBytes_enc]

theorem rdCI_enc (c : ContentInfoModel) (r : List Nat) :
    rdCI (encCI c ++ r) = some (c, r) := by
  obtain ⟨a, b⟩ := c
  simp [encCI, rdCI, List.append_assoc, rdBytes_enc]

theorem decCIFun_enc (c : ContentInfoModel) : decCIFun (encCI c) = some c := by
  have h := rdCI_enc c []
  rw [List.append_nil] at h
  simp [decCIFun, h]

theorem decEnvFun_enc (e : EnvelopedDataModel) : decEnvFun (encEnv e) = some e := by
  have h := rdEnv_enc e []
  rw [List.append_nil] at h
  simp [decEnvFun, h]

theorem recipLoop_length (O : CryptOracles) (key : List Nat)
    (hinj : ∀ i j ki kj a b, i ≠ j → O.rsaEncrypt i ki key = .ok a →
      O.rsaEncrypt j kj key = .ok b → a ≠ b) :
    ∀ certs idx acc infos,
      (∀ r ∈ acc, ∃ i ki, i < idx ∧ O.rsaEncrypt i ki key = .ok r.encryptedKey) →
      recipLoop O key idx certs acc = .ok infos →
      infos.length = acc.length + certs.length := by
  intro certs
  induction certs with
  | nil =>
    intro idx acc infos hacc h
    simp only [recipLoop] at h
    injection h with h2
    rw [← h2]
    simp
  | cons c t ih =>
    intro idx acc infos hacc h
    simp only [recipLoop] at h
    cases hx : O.x509Parse c with
    | error e => simp [hx] at h
    | ok cert =>
      simp only [hx] at h
      cases hp : O.rsaParse cert.spki with
      | error e => simp [hp] at h
      | ok pk =>
        simp only [hp] at h
        cases hek : O.rsaEncrypt idx pk key with
        | error e => simp [hek] at h
        | ok ek =>
          simp only [hek] at h
          cases hd : O.derUnit with
          | error e => simp [hd] at h
          | ok nb =>
            simp only [hd] at h
            have hnotin :
                (⟨0, cert.issuer, cert.serialNumber, oidRsa, nb, ek⟩ :
                  RecipientInfoModel) ∉ acc := by
              intro hin
              obtain ⟨i, ki, hlt, henc⟩ := hacc _ hin
              exact hinj i idx ki pk _ ek (by omega) henc hek rfl
            rw [setInsert, if_neg hnotin] at h
            have hacc2 : ∀ r ∈ acc ++
                [(⟨0, cert.issuer, cert.serialNumber, oidRsa, nb, ek⟩ :
                  RecipientInfoModel)],
                ∃ i ki, i < idx + 1 ∧ O.rsaEncrypt i ki key = .ok r.encryptedKey := by
              intro r hr
              rcases List.mem_append.mp hr with hr | hr
              · obtain ⟨i, ki, hlt, henc⟩ := hacc r hr
                exact ⟨i, ki, by omega, henc⟩
              · have heq : r =
                    ⟨0, cert.issuer, cert.serialNumber, oidRsa, nb, ek⟩ := by
                  simpa using hr
                subst heq
                exact ⟨idx, pk, by omega, hek⟩
            have hlen := ih (idx + 1) _ infos hacc2 h
            rw [hlen]
            simp only [List.length_append, List.length_cons, List.length_nil]
            omega

/-- C8: when encrypt succeeds with S/MIME parameters, its base64 payload is
the DER encoding of a ContentInfo whose contentType is id-envelopedData and
whose EnvelopedData carries one KeyTransRecipientInfo per certificate: the
recipient-set cardinality equals params.certs.length. The DER codec is any
encoder/decoder pair that round-trips, and the RSA key wrapping is assumed to
give distinct wrapped keys on distinct calls (as its mandated random padding
does). -/
theorem C8_smime_enveloped_structure (O : CryptOracles) (m : ParsedMessage)
    (params : EncryptionParams) (out : List Nat)
    (decCI : List Nat → Option ContentInfoModel)
    (decEnv : List Nat → Option EnvelopedDataModel)
    (hmethod : params.method = .SMIME)
    (hCI : ∀ x b, O.derContentInfo x = .ok b → decCI b = some x)
    (hEnv : ∀ x b, O.derEnveloped x = .ok b → decEnv b = some x)
    (hinj : ∀ i j ki kj a b, i ≠ j →
      O.rsaEncrypt i ki (O.symKey params.algo) = .ok a →
      O.rsaEncrypt j kj (O.symKey params.algo) = .ok b → a ≠ b)
    (hok : encrypt O m params = .ok out) :
    ∃ der ci env encoded,
      O.derContentInfo ci = .ok der ∧
      O.b64mime der = .ok encoded ∧
      out = (splitHeaders m).2 ++ smimeHeaderBytes ++ encoded ∧
      decCI der = some ci ∧
      ci.contentType = oidEnvelopedData ∧
      decEnv ci.content = some env ∧
      env.recipientInfos.length = params.certs.length := by
  unfold encrypt at hok
  rw [hmethod] at hok
  cases hs : smimeContentInfo O params (innerMessage m) with
  | err e => simp [hs] at hok
  | crashed msg => simp [hs] at hok
  | ok ci =>
    simp only [hs] at hok
    cases hc : O.derContentInfo ci with
    | error e => simp [hc] at hok
    | ok der =>
      simp only [hc] at hok
      cases hb : O.b64mime der with
      | error e => simp [hb] at hok
      | ok encoded =>
        simp only [hb] at hok
        injection hok with hout
        unfold smimeContentInfo at hs
        cases hr : recipLoop O (O.symKey params.algo) 0 params.certs [] with
        | err e => simp [hr] at hs
        | crashed msg => simp [hr] at hs
        | ok infos =>
          simp only [hr] at hs
          cases ho : O.derOctet O.iv with
          | error e => simp [ho] at hs
          | ok ivDer =>
            simp only [ho] at hs
            cases hv : O.derEnveloped ⟨0, infos,
                ⟨oidData, to_algorithm_identifier params.algo, ivDer,
                  algorithmEncrypt O params.algo (O.symKey params.algo) O.iv
                    (innerMessage m)⟩⟩ with
            | error e => simp [hv] at hs
            | ok envBytes =>
              simp only [hv] at hs
              injection hs with hci
              refine ⟨der, ci,
                ⟨0, infos, ⟨oidData, to_algorithm_identifier params.algo, ivDer,
                  algorithmEncrypt O params.algo (O.symKey params.algo) O.iv
                    (innerMessage m)⟩⟩, encoded,
                hc, hb, hout.symm, hCI ci der hc, ?_, ?_, ?_⟩
              · rw [← hci]
              · rw [← hci]
                exact hEnv _ envBytes hv
              · have hlen := recipLoop_length O (O.symKey params.algo) hinj
                  params.certs 0 [] infos
                  (by intro r hr; exact absurd hr (List.not_mem_nil r)) hr
                simpa using hlen

/-- Witness for C8 under the concrete sample oracle (injective DER stand-in,
index-tagged RSA wrapping) with two distinct certificates. -/
theorem C8_smime_enveloped_structure_witness :
    ∃ der ci env encoded,
      oraclePGP.derContentInfo ci = .ok der ∧
      oraclePGP.b64mime der = .ok encoded ∧
      smimeOut = (splitHeaders msgMultipartEncrypted).2 ++ smimeHeaderBytes ++ encoded ∧
      decCIFun der = some ci ∧
      ci.contentType = oidEnvelopedData ∧
      decEnvFun ci.content = some env ∧
      env.recipientInfos.length = paramsSMIME.certs.length :=
  C8_smime_enveloped_structure oraclePGP msgMultipartEncrypted paramsSMIME smimeOut
    decCIFun decEnvFun rfl
    (fun x b h => by injection h with h2; rw [← h2]; exact decCIFun_enc x)
    (fun x b h => by injection h with h2; rw [← h2]; exact decEnvFun_enc x)
    (fun i j ki kj a b hne ha hb => by
      injection ha with ha2
      injection hb with hb2
      rw [← ha2, ← hb2]
      intro hab
      injection hab with h1 h2
      exact hne h1)
    (by rfl)
